import Mathlib

/-!
Shallow embedding of the reconciliation core of `streamlit_app.py`
(Excel compare tool: closings and contract lists, Test vs Prod).

Modelling conventions, fixed once for the whole file:

* A Python `str` is embedded as `List Char` (a sequence of unicode code
  points, which is exactly Python's string model).
* A raw spreadsheet cell is a `Val`: the missing marker (`pd.isna`-true
  values, i.e. `None`/`NaN`), a native number (modelled as an exact
  rational — Python's binary64 floats are modelled as exact `ℚ` values;
  every literal appearing in the claims is a dyadic rational that binary64
  represents exactly), a boolean, or a string.
* Python's `float(s)` is modelled by `pyFloat` on finite decimal literals
  (optional sign, digits with an optional decimal dot, optional exponent,
  surrounding whitespace ignored).  The special names `inf`/`nan` and
  underscore digit grouping are outside the model and behave as parse
  failures; no claim involves them.
* `str()` of a float is modelled as the exact rational rendering
  (`toString (q : ℚ)`); no claim depends on the digits Python's float
  repr would produce.
-/

/-- Python whitespace (`str.strip` / regex `\s`) restricted to the
characters that can actually occur here: space, TAB, LF, VT, FF, CR and
NBSP (other exotic unicode spaces are not modelled). -/
def pyIsSpace (c : Char) : Bool :=
  c == ' ' || c == Char.ofNat 9 || c == Char.ofNat 10 || c == Char.ofNat 11 ||
    c == Char.ofNat 12 || c == Char.ofNat 13 || c == Char.ofNat 160

/-- Python `str.strip()`: drop leading and trailing whitespace. -/
def pyStrip (l : List Char) : List Char :=
  ((l.dropWhile pyIsSpace).reverse.dropWhile pyIsSpace).reverse

/-- Strict lexicographic order on code-point sequences: exactly Python's
`<` on `str`, which drives `sorted()` and `sort_values`. -/
def lexLt : List Char → List Char → Bool
  | _, [] => false
  | [], _ :: _ => true
  | a :: as, b :: bs => decide (a < b) || (a == b && lexLt as bs)

/-- Reflexive closure of `lexLt`. -/
def lexLe (a b : List Char) : Bool :=
  lexLt a b || a == b

/-- Value of a string of ASCII digits, most significant first. -/
def digitsToNat (ds : List Char) : ℕ :=
  ds.foldl (fun a c => 10 * a + (c.toNat - 48)) 0

/-- Split off the maximal leading run of ASCII digits. -/
def takeDigits : List Char → List Char × List Char
  | [] => ([], [])
  | c :: cs =>
    if c.isDigit then
      let p := takeDigits cs
      (c :: p.1, p.2)
    else ([], c :: cs)

/-- Exponent tail of a float literal (everything after `e`/`E`):
optional sign followed by at least one digit and nothing else. -/
def parseExpTail (cs : List Char) : Option ℤ :=
  let s : ℤ × List Char :=
    match cs with
    | c :: r => if c = '+' then (1, r) else if c = '-' then (-1, r) else (1, c :: r)
    | [] => (1, [])
  let p := takeDigits s.2
  if p.1 = [] ∨ p.2 ≠ [] then none else some (s.1 * (digitsToNat p.1 : ℤ))

/-- The rational value `sgn * (ipart + fpart / 10 ^ flen) * 10 ^ e` of a
decoded float literal, assembled with `mkRat` over integer arithmetic so
that it evaluates by kernel reduction (the arithmetic reading is proved as
`ratOfParts_eq` below). -/
def ratOfParts (sgn : ℤ) (ipart fpart flen : ℕ) (e : ℤ) : ℚ :=
  match e with
  | .ofNat n => mkRat (sgn * ((ipart * 10 ^ flen + fpart) * 10 ^ n)) (10 ^ flen)
  | .negSucc n => mkRat (sgn * (ipart * 10 ^ flen + fpart)) (10 ^ flen * 10 ^ (n + 1))

/-- Python `float(s)` on finite decimal literals (see the module comment):
optional surrounding whitespace, optional sign, digits with an optional
decimal dot (at least one digit overall), optional decimal exponent. -/
def pyFloat (cs0 : List Char) : Option ℚ :=
  let cs := pyStrip cs0
  let sgn : ℤ × List Char :=
    match cs with
    | c :: r => if c = '+' then ((1 : ℤ), r) else if c = '-' then ((-1 : ℤ), r) else ((1 : ℤ), c :: r)
    | [] => ((1 : ℤ), [])
  let ip := takeDigits sgn.2
  let fp : List Char × List Char :=
    match ip.2 with
    | '.' :: r => takeDigits r
    | other => ([], other)
  if ip.1 = [] ∧ fp.1 = [] then none
  else
    match fp.2 with
    | [] => some (ratOfParts sgn.1 (digitsToNat ip.1) (digitsToNat fp.1) fp.1.length 0)
    | c :: r =>
      if c = 'e' ∨ c = 'E' then
        match parseExpTail r with
        | some e => some (ratOfParts sgn.1 (digitsToNat ip.1) (digitsToNat fp.1) fp.1.length e)
        | none => none
      else none

/-- A raw spreadsheet cell (see the module comment). -/
inductive Val where
  | na
  | num (q : ℚ)
  | bool (b : Bool)
  | str (s : List Char)
deriving DecidableEq

/-- Python `str()` of a cell.  `str(nan)` is `"nan"`; float rendering is
modelled as the exact rational rendering (module comment). -/
def pyStr : Val → List Char
  | .na => "nan".data
  | .num q => (toString q).data
  | .bool true => "True".data
  | .bool false => "False".data
  | .str s => s

/-- `pd.isna`. -/
def isna : Val → Bool
  | .na => true
  | _ => false

/-- Python `==` on cells.  `True == 1` and `False == 0` hold across
bool/number; `NaN == NaN` is false (the both-missing case is
short-circuited upstream in the diff loop, so the `na` rows are inert). -/
def pyEq : Val → Val → Bool
  | .num a, .num b => a == b
  | .str a, .str b => a == b
  | .bool a, .bool b => a == b
  | .bool a, .num b => (if a then (1 : ℚ) else 0) == b
  | .num a, .bool b => a == (if b then (1 : ℚ) else 0)
  | _, _ => false

def nbsp : Char := Char.ofNat 160

def euroSign : Char := Char.ofNat 8364

def curlyQuote : Char := Char.ofNat 8217

def straightQuote : Char := Char.ofNat 39

def doubleQuote : Char := Char.ofNat 34

/-- The cleanup chain of `_try_parse_number`: remove NBSP, `€`, `%`,
ordinary spaces, curly and straight apostrophes (in source order). -/
def cleanNumericChars (s : List Char) : List Char :=
  (((((s.filter (· != nbsp)).filter (· != euroSign)).filter (· != '%')).filter
    (· != ' ')).filter (· != curlyQuote)).filter (· != straightQuote)

/-- Decimal-comma (DE) reading: drop `.` (thousands), turn `,` into `.`. -/
def deForm (sClean : List Char) : List Char :=
  (sClean.filter (· != '.')).map (fun c => if c = ',' then '.' else c)

/-- Decimal-point (EN) reading: drop `,` (thousands). -/
def enForm (sClean : List Char) : List Char :=
  sClean.filter (· != ',')

/-- Text branch of `_try_parse_number`: strip, reject empty, clean, then
try the DE reading before the EN reading; first success wins. -/
def parseNumericText (cs : List Char) : Bool × Option ℚ :=
  let s := pyStrip cs
  if s = [] then (false, none)
  else
    let sClean := cleanNumericChars s
    match pyFloat (deForm sClean) with
    | some q => (true, some q)
    | none =>
      match pyFloat (enForm sClean) with
      | some q => (true, some q)
      | none => (false, none)

/-- `_try_parse_number(val)`: missing → not numeric; native non-bool
numbers → their float value; everything else via `str(val)` and the text
branch (booleans stringify to `"True"`/`"False"`, which never parse). -/
def try_parse_number (v : Val) : Bool × Option ℚ :=
  match v with
  | .na => (false, none)
  | .num q => (true, some q)
  | .bool b => parseNumericText (pyStr (.bool b))
  | .str s => parseNumericText s

/-- The fixed tolerance `TOL = 1.0`. -/
def TOL : ℚ := 1

/-- `nearly_equal(a, b, tol)`: true iff both parse as numbers and the
parsed values differ by less than `tol`. -/
def nearly_equal (a b : Val) (tol : ℚ) : Bool :=
  match try_parse_number a, try_parse_number b with
  | (true, some fa), (true, some fb) => decide (|fa - fb| < tol)
  | _, _ => false

/-- A keyed table (`DataFrame` indexed by the string `Key`): column
labels (raw cell values, since closing headers may keep non-string
labels) and rows as `(Key, cells)` with cells aligned to `cols`. -/
structure KeyedTable where
  cols : List Val
  rows : List (List Char × List Val)
deriving DecidableEq

/-- `key in df.index`. -/
def KeyedTable.hasKey (t : KeyedTable) (k : List Char) : Bool :=
  t.rows.any (fun r => r.1 == k)

/-- The index as a list (with duplicates, in row order). -/
def KeyedTable.keys (t : KeyedTable) : List (List Char) :=
  t.rows.map (·.1)

/-- `df.loc[key, col]`, taking the first matching row and the first
matching column (the source reduces a duplicate-key `Series` to
`.iloc[0]`).  Out-of-table lookups yield the missing marker; the engine
only reads keys and columns it has already checked for membership. -/
def KeyedTable.cell (t : KeyedTable) (k : List Char) (c : Val) : Val :=
  match t.rows.find? (fun r => r.1 == k) with
  | some r =>
    match (t.cols.zip r.2).find? (fun p => p.1 == c) with
    | some p => p.2
    | none => .na
  | none => .na

/-- One row of the diff report.  The `Unterschiede`/`Differences` field is
modelled structurally: the sentinel `"Keine"`/`"None"` is `diffs []`, the
`"Nur in Prod"`/`"Only in Prod"` status is `onlyInProd` (and symmetrically),
and a recorded difference is the `(column, test value, prod value)` triple
that the source interpolates into `"<col>: Test=<v> / Prod=<v>"`. -/
inductive DiffStatus where
  | onlyInProd
  | onlyInTest
  | diffs (entries : List (Val × Val × Val))
deriving DecidableEq

/-- The inner column loop for a key present in both tables: skip a column
when both sides are missing, or when `nearly_equal` holds; otherwise
record it when either side is missing or the raw values differ. -/
def colDiffs (test prod : KeyedTable) (commonCols : List Val) (k : List Char) :
    List (Val × Val × Val) :=
  commonCols.filterMap (fun c =>
    let vt := test.cell k c
    let vp := prod.cell k c
    if isna vt && isna vp then none
    else if nearly_equal vt vp TOL then none
    else if isna vt || isna vp || !(pyEq vt vp) then some (c, vt, vp)
    else none)

/-- Status of one key of the union: missing on a side, or the recorded
column differences. -/
def rowStatus (test prod : KeyedTable) (commonCols : List Val) (k : List Char) :
    DiffStatus :=
  if !(test.hasKey k) then .onlyInProd
  else if !(prod.hasKey k) then .onlyInTest
  else .diffs (colDiffs test prod commonCols k)

/-- `sorted(set(df_test.index).union(set(df_prod.index)))`. -/
def sortedKeyUnion (test prod : KeyedTable) : List (List Char) :=
  List.insertionSort (fun a b => lexLe a b = true) ((test.keys ++ prod.keys).dedup)

/-- The `results` loop: one entry per key of the sorted union. -/
def reconcile (test prod : KeyedTable) (commonCols : List Val) :
    List (List Char × DiffStatus) :=
  (sortedKeyUnion test prod).map (fun k => (k, rowStatus test prod commonCols k))

/-- `df_diff = df_diff[df_diff["Unterschiede"] != "Keine"]`: drop the
rows whose difference field is the sentinel. -/
def diffReport (test prod : KeyedTable) (commonCols : List Val) :
    List (List Char × DiffStatus) :=
  (reconcile test prod commonCols).filter (fun r => !(r.2 == .diffs []))

/-- `df_test.columns.intersection(df_prod.columns).difference(excluded)`.
The pandas `difference` would additionally sort the surviving labels; the
order of compared columns is kept as in the test table, and no claim
depends on it. -/
def commonCompareCols (test prod : KeyedTable) (excluded : List Val) : List Val :=
  (test.cols.filter (fun c => prod.cols.contains c)).filter
    (fun c => !(excluded.contains c))

/-- A raw single-header table as read by `pd.read_excel`: header labels
(raw cell values) and data rows aligned with them (pandas pads ragged
sheets with the missing marker, so cells are read with an `na` default). -/
structure RawTable where
  cols : List Val
  rows : List (List Val)
deriving DecidableEq

/-- Cell of a row at a column position. -/
def cellAt (r : List Val) (i : ℕ) : Val :=
  r.getD i .na

/-- Column-name normalization of `prepare_contract_list`: cast to `str`,
strip, remove double quotes, remove single quotes (in source order). -/
def normColName (v : Val) : List Char :=
  ((pyStrip (pyStr v)).filter (· != doubleQuote)).filter (· != straightQuote)

/-- The normalized column list of a raw table. -/
def normCols (t : RawTable) : List (List Char) :=
  t.cols.map normColName

/-- `df[c] = df[c].astype(str)` for each identity column name in
`strCols`: rebuild each row at table width, stringifying the cells of the
named columns. -/
def stringifyIdCols (cols : List (List Char)) (strCols : List (List Char))
    (r : List Val) : List Val :=
  (List.range cols.length).map (fun i =>
    if strCols.contains (cols.getD i []) then Val.str (pyStr (cellAt r i))
    else cellAt r i)

/-- Positions of the non-identity columns (`other_cols`). -/
def fallbackOtherIdx (cols : List (List Char)) (sysC assetC : List Char) : List ℕ :=
  (List.range cols.length).filter
    (fun i => !(cols.getD i [] == sysC) && !(cols.getD i [] == assetC))

/-- The fallback tie-break `_sort_key`: the `|`-joined string forms of all
non-identity cells of a row. -/
def tieBreakStr (cols : List (List Char)) (sysC assetC : List Char)
    (r : List Val) : List Char :=
  List.intercalate "|".data
    ((fallbackOtherIdx cols sysC assetC).map (fun i => pyStr (cellAt r i)))

/-- The full fallback sort key of a row:
`(systemId, assetId, tieBreak)` as strings. -/
def fallbackSortKey (cols : List (List Char)) (sysC assetC : List Char)
    (r : List Val) : List Char × List Char × List Char :=
  (pyStr (cellAt r (cols.indexOf sysC)), pyStr (cellAt r (cols.indexOf assetC)),
    tieBreakStr cols sysC assetC r)

/-- Lexicographic `≤` on string pairs (ties broken by the second). -/
def pairLe (a b : List Char × List Char) : Bool :=
  lexLt a.1 b.1 || (a.1 == b.1 && lexLe a.2 b.2)

/-- Lexicographic `≤` on string triples. -/
def tripleLe (a b : List Char × List Char × List Char) : Bool :=
  lexLt a.1 b.1 || (a.1 == b.1 && pairLe a.2 b.2)

/-- The `(systemId, assetId)` group of a row, as strings
(`groupby([system_id_col, asset_col])` groups by these values). -/
def grpPair (cols : List (List Char)) (sysC assetC : List Char)
    (r : List Val) : List Char × List Char :=
  (pyStr (cellAt r (cols.indexOf sysC)), pyStr (cellAt r (cols.indexOf assetC)))

/-- `df.sort_values(...)` of the fallback branch: sort by
`(systemId, assetId, _sort_key)` when non-identity columns exist, else by
`(systemId, assetId)`.  pandas multi-key sorting (`numpy.lexsort`) is
stable, matched here by a stable insertion sort. -/
def fallbackSortRows (cols : List (List Char)) (sysC assetC : List Char)
    (rows : List (List Val)) : List (List Val) :=
  if (fallbackOtherIdx cols sysC assetC).isEmpty then
    List.insertionSort
      (fun r1 r2 => pairLe (grpPair cols sysC assetC r1) (grpPair cols sysC assetC r2) = true)
      rows
  else
    List.insertionSort
      (fun r1 r2 => tripleLe (fallbackSortKey cols sysC assetC r1) (fallbackSortKey cols sysC assetC r2) = true)
      rows

/-- `groupby([system_id_col, asset_col]).cumcount() + 1` over the sorted
rows: row `j` gets `1 +` the number of earlier rows in its group. -/
def numberRows (cols : List (List Char)) (sysC assetC : List Char)
    (sorted : List (List Val)) : List (List Val × ℕ) :=
  (List.range sorted.length).map (fun j =>
    (sorted.getD j [],
      1 + (sorted.take j).countP
        (fun r2 => grpPair cols sysC assetC r2 == grpPair cols sysC assetC (sorted.getD j []))))

/-- The fallback key of a numbered row:
`systemId + "_" + assetId + "_" + str(LineIndex)`. -/
def fallbackKey (cols : List (List Char)) (sysC assetC : List Char)
    (r : List Val) (n : ℕ) : List Char :=
  pyStr (cellAt r (cols.indexOf sysC)) ++ "_".data ++
    pyStr (cellAt r (cols.indexOf assetC)) ++ "_".data ++ (toString n).data

/-- Result of `prepare_contract_list`: the keyed table plus the
missing-required-columns report (`st.error` surfaces the missing labels
and the full normalized column list; the missing-optional `st.warning` is
presentation only and is not modelled). -/
structure PrepOutput where
  missingReport : Option (List (List Char) × List (List Char))
  table : KeyedTable
deriving DecidableEq

/-- `prepare_contract_list(file, system_id_col, asset_col, payment_id_col,
option_id_col)`.  Normalizes column names; on missing required identity
columns reports them and returns the empty keyed table; declared-but-absent
optional columns are dropped; identity columns are stringified; with a
payment/option column the key is the `_`-join of the identity columns,
otherwise the fallback sorts by `(systemId, assetId, tieBreak)`, numbers
rows per group from 1 and keys each row
`systemId_assetId_LineIndex` (the `LineIndex` column stays in the table,
the `Key` column moves to the index). -/
def prepare_contract_list (t : RawTable) (sysC assetC : List Char)
    (payC optC : Option (List Char)) : PrepOutput :=
  let cols := normCols t
  let missingReq := [sysC, assetC].filter (fun c => !(cols.contains c))
  if missingReq ≠ [] then
    ⟨some (missingReq, cols), ⟨[], []⟩⟩
  else
    let pay := match payC with
      | some p => if cols.contains p then some p else none
      | none => none
    let opt := match optC with
      | some p => if cols.contains p then some p else none
      | none => none
    let idCols := [sysC, assetC] ++ pay.toList ++ opt.toList
    let rows1 := t.rows.map (stringifyIdCols cols idCols)
    if pay.isSome || opt.isSome then
      let rowsK := rows1.map (fun r =>
        (List.intercalate "_".data (idCols.map (fun c => pyStr (cellAt r (cols.indexOf c)))), r))
      ⟨none, ⟨cols.map .str, rowsK⟩⟩
    else
      let sorted := fallbackSortRows cols sysC assetC rows1
      let rowsK := (numberRows cols sysC assetC sorted).map (fun p =>
        (fallbackKey cols sysC assetC p.1 p.2, p.1 ++ [Val.num (p.2 : ℚ)]))
      ⟨none, ⟨cols.map .str ++ [.str "LineIndex".data], rowsK⟩⟩

/-- The contract-list comparison flow around the engine: prepare both
sides, `st.stop()` (modelled as `none`) only when both keyed tables are
empty, otherwise compare over the common columns minus identity, `Key`
and `LineIndex`. -/
def compare_contract_lists (tTest tProd : RawTable) (sysC assetC : List Char)
    (payC optC : Option (List Char)) : Option (List (List Char × DiffStatus)) :=
  let pt := prepare_contract_list tTest sysC assetC payC optC
  let pp := prepare_contract_list tProd sysC assetC payC optC
  if pt.table.rows.isEmpty && pp.table.rows.isEmpty then none
  else
    some (diffReport pt.table pp.table
      (commonCompareCols pt.table pp.table
        [.str sysC, .str assetC, .str "Key".data, .str "LineIndex".data]))

/-- `fillna(method="ffill")` along a header row: a missing cell takes the
nearest non-missing value to its left; leading missing cells stay missing. -/
def ffillRow (r : List Val) : List Val :=
  (r.foldl (fun acc v =>
    match v with
    | .na => (acc.1 ++ [acc.2], acc.2)
    | w => (acc.1 ++ [w], w)) (([] : List Val), Val.na)).1

/-- Helper of `collapseWs`: the flag records whether the previous
character was whitespace (whose run already emitted its single space). -/
def collapseWsAux : Bool → List Char → List Char
  | _, [] => []
  | inSpace, c :: cs =>
    if pyIsSpace c then
      if inSpace then collapseWsAux true cs
      else ' ' :: collapseWsAux true cs
    else c :: collapseWsAux false cs

/-- `re.sub(r"\s+", " ", s)`: collapse every whitespace run to one space. -/
def collapseWs (l : List Char) : List Char :=
  collapseWsAux false l

/-- Column name `i` of a closing table: the (forward-filled) header-row-1
value for the first 9 positions, else the composite
`"<desc> - <acct>_IFRS16 - <dc>"` built from the forward-filled rows 1
and 2 and the raw row 3. -/
def closingColName (h1 h2 h3 : List Val) (i : ℕ) : Val :=
  if i < 9 then h1.getD i .na
  else
    .str (collapseWs (pyStrip (pyStr (h1.getD i .na))) ++ " - ".data ++
      pyStrip (pyStr (h2.getD i .na)) ++ "_IFRS16 - ".data ++
      pyStrip (pyStr (h3.getD i .na)))

/-- The rebuilt column list of a closing sheet (width = the width of
header row 1, rows 1 and 2 forward-filled, row 3 raw). -/
def closingNames (dfRaw : List (List Val)) : List Val :=
  (List.range (ffillRow (dfRaw.getD 1 [])).length).map
    (closingColName (ffillRow (dfRaw.getD 1 [])) (ffillRow (dfRaw.getD 2 []))
      (dfRaw.getD 3 []))

/-- `df[c] = df[c].astype(str)` for the two closing identity columns:
rebuild a data row at header width, stringifying the identity cells. -/
def closingStringify (names : List Val) (idIdx assetIdx : ℕ) (r : List Val) :
    List Val :=
  (List.range names.length).map (fun i =>
    if i = idIdx || i = assetIdx then Val.str (pyStr (cellAt r i)) else cellAt r i)

/-- `clean_and_prepare(file, id_col, asset_col)`: read the sheet headerless,
rebuild the column names from header rows 1–3, take the data from physical
row index 4, stringify the two identity columns and index by
`Key = identifier + "_" + asset`.  The result is `none` unless each
identity label occurs exactly once among the rebuilt names: with the
label missing the source raises `KeyError` at `df_data[id_col]`, and with
the label duplicated the `Key` assignment receives a two-column frame and
raises `ValueError` — in either case no keyed table is produced.  Inside
the guard, `indexOf` is the label's unique position. -/
def clean_and_prepare (dfRaw : List (List Val)) (idC assetC : List Char) :
    Option KeyedTable :=
  let names := closingNames dfRaw
  if names.count (.str idC) = 1 ∧ names.count (.str assetC) = 1 then
    let idIdx := names.indexOf (.str idC)
    let assetIdx := names.indexOf (.str assetC)
    let rows1 := (dfRaw.drop 4).map (closingStringify names idIdx assetIdx)
    some ⟨names, rows1.map (fun r =>
      (pyStr (cellAt r idIdx) ++ "_".data ++ pyStr (cellAt r assetIdx), r))⟩
  else none

/-- Concrete closing sheet for the C8 witness: header rows at physical
indices 1–3, ten columns, one data row at physical index 4.  The missing
header-row-1 cell at index 3 sits in a non-identity column, so the sheet
is one the source processes without raising (its forward-fill duplicates
only the non-identity label `"c2"`, which pandas tolerates). -/
def closingEx : List (List Val) :=
  [[],
   [.str "Vertrags-ID".data, .str "Asset-ID".data, .str "c2".data, .na,
    .str "c4".data, .str "c5".data, .str "c6".data, .str "c7".data,
    .str "c8".data, .str " Desc   X ".data],
   [.na, .na, .na, .na, .na, .na, .na, .na, .na, .str " 100 ".data],
   [.na, .na, .na, .na, .na, .na, .na, .na, .na, .str " S ".data],
   [.str "C1".data, .str "A1".data, .na, .na, .na, .na, .na, .na, .na,
    .str "5".data]]

/-- Concrete contract list for the C4 witness: identity columns `S`, `A`,
one other column `V`; two rows share `(S1, A1)` and differ only in `V`,
supplied in reverse tie-break order (`"b"` before `"a"`). -/
def contractEx : RawTable :=
  ⟨[.str "S".data, .str "A".data, .str "V".data],
   [[.str "S1".data, .str "A1".data, .str "b".data],
    [.str "S1".data, .str "A1".data, .str "a".data]]⟩

theorem lexLt_irrefl (a : List Char) : lexLt a a = false := by
  induction a with
  | nil => rfl
  | cons c cs ih => simp [lexLt, ih, lt_irrefl]

theorem lexLt_asymm : ∀ a b : List Char, lexLt a b = true → lexLt b a = false
  | a, [], h => by cases a <;> simp [lexLt] at h
  | [], _ :: _, _ => rfl
  | a :: as, b :: bs, h => by
    simp only [lexLt, Bool.or_eq_true, Bool.and_eq_true, decide_eq_true_eq,
      beq_iff_eq] at h
    simp only [lexLt, Bool.or_eq_false_iff, Bool.and_eq_false_iff,
      decide_eq_false_iff_not]
    rcases h with h | ⟨rfl, h⟩
    · exact ⟨lt_asymm h, Or.inl (by simp [(ne_of_lt h).symm])⟩
    · exact ⟨lt_irrefl _, Or.inr (lexLt_asymm as bs h)⟩

theorem lexLt_conn : ∀ a b : List Char, lexLt a b = false → lexLt b a = false → a = b
  | [], [], _, _ => rfl
  | [], _ :: _, h, _ => by cases h
  | _ :: _, [], _, h => by cases h
  | a :: as, b :: bs, h1, h2 => by
    simp only [lexLt, Bool.or_eq_false_iff, Bool.and_eq_false_iff,
      decide_eq_false_iff_not, beq_eq_false_iff_ne, ne_eq] at h1 h2
    have hab : a = b := le_antisymm (not_lt.mp h2.1) (not_lt.mp h1.1)
    subst hab
    have t1 : lexLt as bs = false := by
      rcases h1.2 with h | h
      · exact absurd rfl h
      · exact h
    have t2 : lexLt bs as = false := by
      rcases h2.2 with h | h
      · exact absurd rfl h
      · exact h
    rw [lexLt_conn as bs t1 t2]

theorem lexLt_trans : ∀ a b c : List Char,
    lexLt a b = true → lexLt b c = true → lexLt a c = true
  | _, b, [], _, h => by cases b <;> simp [lexLt] at h
  | [], _ :: _, _ :: _, _, _ => rfl
  | _ :: _, [], _ :: _, h, _ => by cases h
  | a :: as, b :: bs, c :: cs, h1, h2 => by
    simp only [lexLt, Bool.or_eq_true, Bool.and_eq_true, decide_eq_true_eq,
      beq_iff_eq] at h1 h2 ⊢
    rcases h1 with h1 | ⟨rfl, h1⟩
    · rcases h2 with h2 | ⟨rfl, _⟩
      · exact Or.inl (lt_trans h1 h2)
      · exact Or.inl h1
    · rcases h2 with h2 | ⟨rfl, h2⟩
      · exact Or.inl h2
      · exact Or.inr ⟨rfl, lexLt_trans as bs cs h1 h2⟩

theorem lexLe_total (a b : List Char) : lexLe a b = true ∨ lexLe b a = true := by
  by_cases h1 : lexLt a b = true
  · exact Or.inl (by simp [lexLe, h1])
  · by_cases h2 : lexLt b a = true
    · exact Or.inr (by simp [lexLe, h2])
    · have := lexLt_conn a b (Bool.not_eq_true _ ▸ h1) (Bool.not_eq_true _ ▸ h2)
      exact Or.inl (by simp [lexLe, this])

theorem lexLe_trans {a b c : List Char}
    (h1 : lexLe a b = true) (h2 : lexLe b c = true) : lexLe a c = true := by
  simp only [lexLe, Bool.or_eq_true, beq_iff_eq] at h1 h2 ⊢
  rcases h1 with h1 | rfl
  · rcases h2 with h2 | rfl
    · exact Or.inl (lexLt_trans _ _ _ h1 h2)
    · exact Or.inl h1
  · exact h2

theorem pairLe_total (a b : List Char × List Char) :
    pairLe a b = true ∨ pairLe b a = true := by
  by_cases h1 : lexLt a.1 b.1 = true
  · exact Or.inl (by simp [pairLe, h1])
  · by_cases h2 : lexLt b.1 a.1 = true
    · exact Or.inr (by simp [pairLe, h2])
    · have he := lexLt_conn a.1 b.1 (Bool.not_eq_true _ ▸ h1) (Bool.not_eq_true _ ▸ h2)
      rcases lexLe_total a.2 b.2 with h | h
      · exact Or.inl (by simp [pairLe, he, h])
      · exact Or.inr (by simp [pairLe, he.symm, h])

theorem pairLe_trans {a b c : List Char × List Char}
    (h1 : pairLe a b = true) (h2 : pairLe b c = true) : pairLe a c = true := by
  simp only [pairLe, Bool.or_eq_true, Bool.and_eq_true, beq_iff_eq] at h1 h2 ⊢
  rcases h1 with h1 | ⟨e1, h1⟩
  · rcases h2 with h2 | ⟨e2, _⟩
    · exact Or.inl (lexLt_trans _ _ _ h1 h2)
    · exact Or.inl (e2 ▸ h1)
  · rcases h2 with h2 | ⟨e2, h2⟩
    · exact Or.inl (e1 ▸ h2)
    · exact Or.inr ⟨e1.trans e2, lexLe_trans h1 h2⟩

theorem tripleLe_total (a b : List Char × List Char × List Char) :
    tripleLe a b = true ∨ tripleLe b a = true := by
  by_cases h1 : lexLt a.1 b.1 = true
  · exact Or.inl (by simp [tripleLe, h1])
  · by_cases h2 : lexLt b.1 a.1 = true
    · exact Or.inr (by simp [tripleLe, h2])
    · have he := lexLt_conn a.1 b.1 (Bool.not_eq_true _ ▸ h1) (Bool.not_eq_true _ ▸ h2)
      rcases pairLe_total a.2 b.2 with h | h
      · exact Or.inl (by simp [tripleLe, he, h])
      · exact Or.inr (by simp [tripleLe, he.symm, h])

theorem tripleLe_trans {a b c : List Char × List Char × List Char}
    (h1 : tripleLe a b = true) (h2 : tripleLe b c = true) : tripleLe a c = true := by
  simp only [tripleLe, Bool.or_eq_true, Bool.and_eq_true, beq_iff_eq] at h1 h2 ⊢
  rcases h1 with h1 | ⟨e1, h1⟩
  · rcases h2 with h2 | ⟨e2, _⟩
    · exact Or.inl (lexLt_trans _ _ _ h1 h2)
    · exact Or.inl (e2 ▸ h1)
  · rcases h2 with h2 | ⟨e2, h2⟩
    · exact Or.inl (e1 ▸ h2)
    · exact Or.inr ⟨e1.trans e2, pairLe_trans h1 h2⟩

theorem parseNumericText_shape (cs : List Char) :
    parseNumericText cs = (false, none) ∨ ∃ f, parseNumericText cs = (true, some f) := by
  unfold parseNumericText
  by_cases h : pyStrip cs = []
  · rw [if_pos h]
    exact Or.inl rfl
  · rw [if_neg h]
    dsimp only
    rcases hde : pyFloat (deForm (cleanNumericChars (pyStrip cs))) with _ | q
    · rcases hen : pyFloat (enForm (cleanNumericChars (pyStrip cs))) with _ | q
      · exact Or.inl rfl
      · exact Or.inr ⟨q, rfl⟩
    · exact Or.inr ⟨q, rfl⟩

theorem try_parse_number_shape (v : Val) :
    try_parse_number v = (false, none) ∨ ∃ f, try_parse_number v = (true, some f) := by
  cases v with
  | na => exact Or.inl rfl
  | num q => exact Or.inr ⟨q, rfl⟩
  | bool b =>
    simp only [try_parse_number]
    exact parseNumericText_shape _
  | str s =>
    simp only [try_parse_number]
    exact parseNumericText_shape s

theorem parse_true_some {v : Val} (h : (try_parse_number v).1 = true) :
    ∃ f, try_parse_number v = (true, some f) := by
  rcases try_parse_number_shape v with hv | hv
  · rw [hv] at h; cases h
  · exact hv

theorem ratOfParts_eq (sgn : ℤ) (ipart fpart flen : ℕ) (e : ℤ) :
    ratOfParts sgn ipart fpart flen e =
      (sgn : ℚ) * ((ipart : ℚ) + (fpart : ℚ) / (10 : ℚ) ^ flen) * (10 : ℚ) ^ e := by
  have hp : ((10 : ℚ) ^ flen) ≠ 0 := by positivity
  cases e with
  | ofNat n =>
    rw [ratOfParts, Rat.mkRat_eq_div]
    push_cast
    field_simp
    ring
  | negSucc n =>
    rw [ratOfParts, Rat.mkRat_eq_div, zpow_negSucc]
    push_cast
    field_simp

theorem parse_num (q : ℚ) : try_parse_number (.num q) = (true, some q) := rfl

theorem nearly_equal_eval {a b : Val} {qa qb : ℚ}
    (ha : try_parse_number a = (true, some qa))
    (hb : try_parse_number b = (true, some qb)) :
    nearly_equal a b TOL = decide (|qa - qb| < 1) := by
  unfold nearly_equal
  rw [ha, hb]
  rfl

/-- C1 counterexample: the claim fails as stated.  The textual
representation `"1000.5"` is captured by the decimal-comma attempt (the
dot is removed as a thousands separator), so it parses as `10005.0`, and
pairing it with the native float `1000.5` is not nearly equal. -/
theorem C1_counterexample :
    nearly_equal (.str "1000.5".data) (.num 1000.5) TOL = false ∧
      try_parse_number (.str "1000.5".data) = (true, some 10005) := by
  have h1 : try_parse_number (.str "1000.5".data) = (true, some (mkRat 10005 1)) := by
    decide
  have h10005 : mkRat 10005 1 = (10005 : ℚ) := by
    rw [Rat.mkRat_eq_div]
    norm_num
  rw [h10005] at h1
  refine ⟨?_, h1⟩
  rw [nearly_equal_eval h1 (parse_num 1000.5)]
  simp only [decide_eq_false_iff_not, abs_sub_lt_iff, not_and_or, not_lt]
  norm_num

/-- C1 (amended): `nearlyEqual(x, x)` is true for every numeric-parseable
`x` (so each of the three representations is nearly equal to itself), and
`"1.000,50"` and the native float `1000.5` are nearly equal to each other
in either order; but the textual `"1000.5"` parses as `10005.0`
(decimal-comma attempt first), so the pairs mixing it with the other two
representations of the number 1000.5 are not nearly equal and are
excluded. -/
theorem C1_nearly_equal_refl :
    (∀ x : Val, (try_parse_number x).1 = true → nearly_equal x x TOL = true)
    ∧ nearly_equal (.str "1.000,50".data) (.num 1000.5) TOL = true
    ∧ nearly_equal (.num 1000.5) (.str "1.000,50".data) TOL = true
    ∧ nearly_equal (.str "1.000,50".data) (.str "1.000,50".data) TOL = true
    ∧ nearly_equal (.str "1000.5".data) (.str "1000.5".data) TOL = true
    ∧ nearly_equal (.num 1000.5) (.num 1000.5) TOL = true := by
  have hde : try_parse_number (.str "1.000,50".data) = (true, some (mkRat 100050 100)) := by
    decide
  have hq : mkRat 100050 100 = (1000.5 : ℚ) := by
    rw [Rat.mkRat_eq_div]
    norm_num
  rw [hq] at hde
  have refl1 : ∀ x : Val, (try_parse_number x).1 = true → nearly_equal x x TOL = true := by
    intro x hx
    obtain ⟨f, hf⟩ := parse_true_some hx
    rw [nearly_equal_eval hf hf]
    simp
  refine ⟨refl1, ?_, ?_, refl1 _ (by decide), refl1 _ (by decide), refl1 _ (by decide)⟩
  · rw [nearly_equal_eval hde (parse_num 1000.5)]
    simp
  · rw [nearly_equal_eval (parse_num 1000.5) hde]
    simp

/-- C1 witness: the reflexivity part applied to the numeric-parseable
representation `"1.000,50"`. -/
theorem C1_witness :
    (try_parse_number (.str "1.000,50".data)).1 = true ∧
      nearly_equal (.str "1.000,50".data) (.str "1.000,50".data) TOL = true :=
  ⟨by decide, C1_nearly_equal_refl.1 _ (by decide)⟩

theorem parse_ne_na {v : Val} {fa : ℚ} (h : try_parse_number v = (true, some fa)) :
    isna v = false := by
  cases v with
  | na => exact absurd h (by simp [try_parse_number])
  | num q => rfl
  | bool b => rfl
  | str s => rfl

theorem parse_bool_fails (b : Bool) : try_parse_number (.bool b) = (false, none) := by
  cases b with
  | true => decide
  | false => decide

/-- C9: `_try_parse_number` is total: on every cell it returns either
`(False, None)` or `(True, f)` for a float `f`, never raising.  Missing
markers yield `(False, None)`; booleans (which stringify to `"True"` /
`"False"` and never parse) yield `(False, None)`; native non-bool numbers
yield their float value; and on text both float-conversion attempts are
wrapped, so whenever the decimal-comma and the decimal-point attempts
both fail the result falls through to `(False, None)`. -/
theorem C9_parse_total :
    (∀ v : Val, try_parse_number v = (false, none) ∨
      ∃ f, try_parse_number v = (true, some f))
    ∧ try_parse_number .na = (false, none)
    ∧ (∀ b, try_parse_number (.bool b) = (false, none))
    ∧ (∀ q, try_parse_number (.num q) = (true, some q))
    ∧ (∀ s : List Char,
        pyFloat (deForm (cleanNumericChars (pyStrip s))) = none →
        pyFloat (enForm (cleanNumericChars (pyStrip s))) = none →
        try_parse_number (.str s) = (false, none)) := by
  refine ⟨try_parse_number_shape, rfl, parse_bool_fails, parse_num, ?_⟩
  intro s hde hen
  by_cases h : pyStrip s = []
  · simp only [try_parse_number]
    unfold parseNumericText
    dsimp only
    rw [if_pos h]
  · simp only [try_parse_number]
    unfold parseNumericText
    dsimp only
    rw [if_neg h, hde, hen]

/-- C9 witness: the arbitrary string `"abc"` fails both float-conversion
attempts and falls through to `(False, None)`. -/
theorem C9_witness :
    pyFloat (deForm (cleanNumericChars (pyStrip "abc".data))) = none
    ∧ pyFloat (enForm (cleanNumericChars (pyStrip "abc".data))) = none
    ∧ try_parse_number (.str "abc".data) = (false, none) :=
  ⟨by decide, by decide, C9_parse_total.2.2.2.2 "abc".data (by decide) (by decide)⟩

theorem pyEq_numeric {a b : Val} {fa fb : ℚ}
    (ha : try_parse_number a = (true, some fa))
    (hb : try_parse_number b = (true, some fb))
    (he : pyEq a b = true) : fa = fb := by
  cases a with
  | na => exact absurd ha (by simp [try_parse_number])
  | bool b0 => rw [parse_bool_fails b0] at ha; exact absurd ha (by simp)
  | num qa =>
    cases b with
    | num qb =>
      simp only [pyEq, beq_iff_eq] at he
      simp only [try_parse_number, Prod.mk.injEq, Option.some.injEq] at ha hb
      rw [← ha.2, ← hb.2, he]
    | bool b0 => rw [parse_bool_fails b0] at hb; exact absurd hb (by simp)
    | na => exact absurd hb (by simp [try_parse_number])
    | str s => exact absurd he (by simp [pyEq])
  | str sa =>
    cases b with
    | str sb =>
      simp only [pyEq, beq_iff_eq] at he
      subst he
      rw [ha] at hb
      exact Option.some.injEq _ _ ▸ (Prod.mk.injEq _ _ _ _ ▸ hb).2
    | bool b0 => rw [parse_bool_fails b0] at hb; exact absurd hb (by simp)
    | na => exact absurd hb (by simp [try_parse_number])
    | num qb => exact absurd he (by simp [pyEq])

/-- C3: for cells `a`, `b` that both parse as numbers `fa`, `fb`,
`nearly_equal(a, b)` at the fixed tolerance holds exactly when
`|fa - fb| < 1.0`; and whenever `|fa - fb| ≥ 1.0` (including the boundary
`= 1.0`) it is false and the reconciliation column loop records the
difference for that column. -/
theorem C3_tolerance {a b : Val} {fa fb : ℚ}
    (ha : try_parse_number a = (true, some fa))
    (hb : try_parse_number b = (true, some fb)) :
    (nearly_equal a b TOL = true ↔ |fa - fb| < 1)
    ∧ (1 ≤ |fa - fb| →
        nearly_equal a b TOL = false
        ∧ ∀ (test prod : KeyedTable) (cols : List Val) (c : Val) (k : List Char),
            c ∈ cols → test.cell k c = a → prod.cell k c = b →
            (c, a, b) ∈ colDiffs test prod cols k) := by
  have hiff : nearly_equal a b TOL = true ↔ |fa - fb| < 1 := by
    rw [nearly_equal_eval ha hb]
    exact decide_eq_true_iff
  refine ⟨hiff, fun h1 => ?_⟩
  have hne : nearly_equal a b TOL = false := by
    rw [nearly_equal_eval ha hb, decide_eq_false_iff_not]
    exact not_lt.mpr h1
  have hpe : pyEq a b = false := by
    rcases hpe : pyEq a b with _ | _
    · rfl
    · have := pyEq_numeric ha hb hpe
      rw [this, sub_self, abs_zero] at h1
      exact absurd h1 (by norm_num)
  refine ⟨hne, fun test prod cols c k hc hct hcp => ?_⟩
  rw [colDiffs, List.mem_filterMap]
  refine ⟨c, hc, ?_⟩
  dsimp only
  rw [hct, hcp, parse_ne_na ha, parse_ne_na hb, hne, hpe]
  rfl

/-- C3 witness: the boundary case `100` versus `101` (delta exactly 1.0)
is not nearly equal and is recorded by the column loop of a one-column,
one-key pair of tables. -/
theorem C3_witness :
    nearly_equal (.str "100".data) (.str "101".data) TOL = false ∧
      ((Val.str "V".data, Val.str "100".data, Val.str "101".data) ∈
        colDiffs ⟨[.str "V".data], [("k".data, [.str "100".data])]⟩
          ⟨[.str "V".data], [("k".data, [.str "101".data])]⟩
          [.str "V".data] "k".data) := by
  have ha : try_parse_number (.str "100".data) = (true, some (100 : ℚ)) := by
    have h : try_parse_number (.str "100".data) = (true, some (mkRat 100 1)) := by decide
    rwa [show mkRat 100 1 = (100 : ℚ) by rw [Rat.mkRat_eq_div]; norm_num] at h
  have hb : try_parse_number (.str "101".data) = (true, some (101 : ℚ)) := by
    have h : try_parse_number (.str "101".data) = (true, some (mkRat 101 1)) := by decide
    rwa [show mkRat 101 1 = (101 : ℚ) by rw [Rat.mkRat_eq_div]; norm_num] at h
  have habs : (1 : ℚ) ≤ |(100 : ℚ) - 101| := by
    rw [show (100 : ℚ) - 101 = -1 by norm_num, abs_neg, abs_one]
  have h := C3_tolerance ha hb
  exact ⟨(h.2 habs).1,
    (h.2 habs).2 _ _ _ _ "k".data (by decide) (by decide) (by decide)⟩
theorem isDigit_ne {c : Char} (d : Char) (h : c.isDigit = true)
    (hd : d.isDigit = false) : c ≠ d := by
  intro e
  subst e
  rw [h] at hd
  cases hd

theorem digit_not_space {c : Char} (h : c.isDigit = true) : pyIsSpace c = false := by
  have h1 : c ≠ ' ' := isDigit_ne _ h (by decide)
  have h2 : c ≠ Char.ofNat 9 := isDigit_ne _ h (by decide)
  have h3 : c ≠ Char.ofNat 10 := isDigit_ne _ h (by decide)
  have h4 : c ≠ Char.ofNat 11 := isDigit_ne _ h (by decide)
  have h5 : c ≠ Char.ofNat 12 := isDigit_ne _ h (by decide)
  have h6 : c ≠ Char.ofNat 13 := isDigit_ne _ h (by decide)
  have h7 : c ≠ Char.ofNat 160 := isDigit_ne _ h (by decide)
  simp [pyIsSpace, h1, h2, h3, h4, h5, h6, h7]

theorem dropWhile_eq_self_of (p : Char → Bool) (l : List Char)
    (h : ∀ c ∈ l, p c = false) : l.dropWhile p = l := by
  cases l with
  | nil => rfl
  | cons c cs => simp [List.dropWhile, h c (by simp)]

theorem pyStrip_eq_self (l : List Char) (h : ∀ c ∈ l, pyIsSpace c = false) :
    pyStrip l = l := by
  unfold pyStrip
  rw [dropWhile_eq_self_of _ _ h,
    dropWhile_eq_self_of _ _ (fun c hc => h c (List.mem_reverse.mp hc)),
    List.reverse_reverse]

theorem filter_ne_eq_self (x : Char) (l : List Char) (h : ∀ c ∈ l, c ≠ x) :
    l.filter (· != x) = l := by
  rw [List.filter_eq_self]
  intro a ha
  simpa using h a ha

theorem takeDigits_all (l : List Char) (h : ∀ c ∈ l, c.isDigit = true) :
    takeDigits l = (l, []) := by
  induction l with
  | nil => rfl
  | cons c cs ih =>
    rw [takeDigits, if_pos (h c (by simp)), ih (fun d hd => h d (by simp [hd]))]

theorem map_decomma_eq_self (l : List Char) (h : ∀ c ∈ l, c ≠ ',') :
    l.map (fun c => if c = ',' then '.' else c) = l := by
  induction l with
  | nil => rfl
  | cons c cs ih =>
    rw [List.map_cons, if_neg (h c (by simp)), ih (fun d hd => h d (by simp [hd]))]

theorem ratOfParts_nat (n : ℕ) : ratOfParts 1 n 0 0 0 = (n : ℚ) := by
  rw [ratOfParts_eq]
  norm_num

theorem pyFloat_digits (l : List Char) (hne : l ≠ []) (h : ∀ c ∈ l, c.isDigit = true) :
    pyFloat l = some ((digitsToNat l : ℚ)) := by
  obtain ⟨d, ds, rfl⟩ := List.exists_cons_of_ne_nil hne
  have hd : d.isDigit = true := h d (by simp)
  unfold pyFloat
  rw [pyStrip_eq_self _ (fun c hc => digit_not_space (h c hc))]
  dsimp only
  rw [if_neg (isDigit_ne '+' hd (by decide)), if_neg (isDigit_ne '-' hd (by decide)),
    takeDigits_all _ h]
  dsimp only
  rw [if_neg (by simp)]
  rw [show digitsToNat [] = 0 from rfl, show ([] : List Char).length = 0 from rfl,
    ratOfParts_nat]

theorem parse_digit_dot (ds es : List Char) (hds0 : ds ≠ []) (_hes0 : es ≠ [])
    (hds : ∀ c ∈ ds, c.isDigit = true) (hes : ∀ c ∈ es, c.isDigit = true) :
    try_parse_number (.str (ds ++ '.' :: es)) =
      (true, some ((digitsToNat (ds ++ es) : ℚ))) := by
  have hclass : ∀ c ∈ ds ++ '.' :: es, c.isDigit = true ∨ c = '.' := by
    intro c hc
    rcases List.mem_append.mp hc with h | h
    · exact Or.inl (hds c h)
    · rcases List.mem_cons.mp h with rfl | h
      · exact Or.inr rfl
      · exact Or.inl (hes c h)
  have hnospace : ∀ c ∈ ds ++ '.' :: es, pyIsSpace c = false := by
    intro c hc
    rcases hclass c hc with h | rfl
    · exact digit_not_space h
    · decide
  have hne_of : ∀ x : Char, x.isDigit = false → x ≠ '.' →
      ∀ c ∈ ds ++ '.' :: es, c ≠ x := by
    intro x hx hxd c hc
    rcases hclass c hc with h | rfl
    · exact isDigit_ne _ h hx
    · exact fun e => hxd e.symm
  have hclean : cleanNumericChars (ds ++ '.' :: es) = ds ++ '.' :: es := by
    unfold cleanNumericChars
    rw [filter_ne_eq_self _ _ (hne_of nbsp (by decide) (by decide)),
      filter_ne_eq_self _ _ (hne_of euroSign (by decide) (by decide)),
      filter_ne_eq_self _ _ (hne_of '%' (by decide) (by decide)),
      filter_ne_eq_self _ _ (hne_of ' ' (by decide) (by decide)),
      filter_ne_eq_self _ _ (hne_of curlyQuote (by decide) (by decide)),
      filter_ne_eq_self _ _ (hne_of straightQuote (by decide) (by decide))]
  have hdeform : deForm (ds ++ '.' :: es) = ds ++ es := by
    unfold deForm
    rw [List.filter_append,
      filter_ne_eq_self _ _ (fun c hc => isDigit_ne _ (hds c hc) (by decide)),
      List.filter_cons_of_neg (by decide),
      filter_ne_eq_self _ _ (fun c hc => isDigit_ne _ (hes c hc) (by decide)),
      map_decomma_eq_self]
    intro c hc
    rcases List.mem_append.mp hc with h | h
    · exact isDigit_ne _ (hds c h) (by decide)
    · exact isDigit_ne _ (hes c h) (by decide)
  have hall : ∀ c ∈ ds ++ es, c.isDigit = true := by
    intro c hc
    rcases List.mem_append.mp hc with h | h
    · exact hds c h
    · exact hes c h
  have hsne : ds ++ '.' :: es ≠ [] := by simp
  simp only [try_parse_number]
  unfold parseNumericText
  dsimp only
  rw [pyStrip_eq_self _ hnospace, if_neg hsne, hclean, hdeform,
    pyFloat_digits _ (by simp [hds0]) hall]

/-- C2: on every text input the parser first strips surrounding
whitespace (empty → not numeric), removes NBSP, `€`, `%`, spaces and both
apostrophes, then tries the decimal-comma reading before the
decimal-point reading, returning the first successful parse and
non-numeric only when both fail; consequently every string of the digit
shape `"1.234"` (digits, one dot, digits) parses via the decimal-comma
attempt to the integer with the dot removed — `1234.0`, never `1.234`. -/
theorem C2_parse_order :
    (∀ s : List Char,
      (pyStrip s = [] → try_parse_number (.str s) = (false, none))
      ∧ (pyStrip s ≠ [] →
          (∀ q, pyFloat (deForm (cleanNumericChars (pyStrip s))) = some q →
            try_parse_number (.str s) = (true, some q))
          ∧ (pyFloat (deForm (cleanNumericChars (pyStrip s))) = none →
              (∀ q, pyFloat (enForm (cleanNumericChars (pyStrip s))) = some q →
                try_parse_number (.str s) = (true, some q))
              ∧ (pyFloat (enForm (cleanNumericChars (pyStrip s))) = none →
                  try_parse_number (.str s) = (false, none)))))
    ∧ (∀ ds es : List Char, ds ≠ [] → es ≠ [] →
        (∀ c ∈ ds, c.isDigit = true) → (∀ c ∈ es, c.isDigit = true) →
        try_parse_number (.str (ds ++ '.' :: es)) =
          (true, some ((digitsToNat (ds ++ es) : ℚ)))) := by
  refine ⟨fun s => ⟨?_, fun hne => ⟨?_, fun hde => ⟨?_, fun hen => ?_⟩⟩⟩, parse_digit_dot⟩
  · intro h
    simp only [try_parse_number]
    unfold parseNumericText
    dsimp only
    rw [if_pos h]
  · intro q hq
    simp only [try_parse_number]
    unfold parseNumericText
    dsimp only
    rw [if_neg hne, hq]
  · intro q hq
    simp only [try_parse_number]
    unfold parseNumericText
    dsimp only
    rw [if_neg hne, hde, hq]
  · simp only [try_parse_number]
    unfold parseNumericText
    dsimp only
    rw [if_neg hne, hde, hen]

/-- C2 witness: `"1.234"` (which is `"1".data ++ '.' :: "234".data`) is
captured by the decimal-comma attempt and parses as `1234.0`. -/
theorem C2_witness :
    try_parse_number (.str ("1".data ++ '.' :: "234".data)) =
        (true, some ((digitsToNat ("1".data ++ "234".data) : ℚ)))
      ∧ "1".data ++ '.' :: "234".data = "1.234".data
      ∧ digitsToNat ("1".data ++ "234".data) = 1234 :=
  ⟨C2_parse_order.2 "1".data "234".data (by decide) (by decide) (by decide) (by decide),
    by decide, by decide⟩

/-- C7: when at least one required identity column is missing after
column-name normalization, `prepare_contract_list` reports exactly the
missing names together with the full normalized column list and returns
the empty keyed table (a `Key` index with no rows) instead of raising. -/
theorem C7_missing_required (t : RawTable) (sysC assetC : List Char)
    (payC optC : Option (List Char))
    (h : [sysC, assetC].filter (fun c => !((normCols t).contains c)) ≠ []) :
    prepare_contract_list t sysC assetC payC optC =
      ⟨some ([sysC, assetC].filter (fun c => !((normCols t).contains c)), normCols t),
        ⟨[], []⟩⟩ := by
  unfold prepare_contract_list
  dsimp only
  rw [if_pos h]

/-- C7 witness: a table whose only (normalized) column is `"X"` is missing
both `"S"` and `"A"`; the report lists them with the normalized columns
and the returned table is empty. -/
theorem C7_witness :
    prepare_contract_list ⟨[Val.str "X".data], [[Val.str "x".data]]⟩
        "S".data "A".data none none =
      ⟨some (["S".data, "A".data], ["X".data]), ⟨[], []⟩⟩ := by
  rw [C7_missing_required ⟨[Val.str "X".data], [[Val.str "x".data]]⟩
    "S".data "A".data none none (by decide)]
  decide

theorem hasKey_iff (t : KeyedTable) (k : List Char) :
    t.hasKey k = true ↔ k ∈ t.keys := by
  rw [KeyedTable.hasKey, KeyedTable.keys, List.any_eq_true]
  constructor
  · rintro ⟨r, hr, he⟩
    exact List.mem_map.mpr ⟨r, hr, beq_iff_eq.mp he⟩
  · intro hm
    obtain ⟨r, hr, he⟩ := List.mem_map.mp hm
    exact ⟨r, hr, beq_iff_eq.mpr he⟩

theorem sortedKeyUnion_mem (test prod : KeyedTable) (k : List Char) :
    k ∈ sortedKeyUnion test prod ↔ k ∈ test.keys ∨ k ∈ prod.keys := by
  simp [sortedKeyUnion, List.mem_insertionSort, List.mem_dedup, List.mem_append]

/-- C5: the reconciliation loop iterates over exactly the
lexicographically sorted, duplicate-free union of the two key sets, and a
key present on only one side gets the corresponding `only in` status (the
status row carries no column-level differences). -/
theorem C5_key_universe (test prod : KeyedTable) (cols : List Val) :
    List.Sorted (fun a b => lexLe a b = true) ((reconcile test prod cols).map Prod.fst)
    ∧ ((reconcile test prod cols).map Prod.fst).Nodup
    ∧ (∀ k, k ∈ (reconcile test prod cols).map Prod.fst ↔
        test.hasKey k = true ∨ prod.hasKey k = true)
    ∧ (∀ k, test.hasKey k = false → prod.hasKey k = true →
        (k, DiffStatus.onlyInProd) ∈ reconcile test prod cols)
    ∧ (∀ k, test.hasKey k = true → prod.hasKey k = false →
        (k, DiffStatus.onlyInTest) ∈ reconcile test prod cols) := by
  haveI instTot : IsTotal (List Char) (fun a b => lexLe a b = true) :=
    ⟨fun a b => lexLe_total a b⟩
  haveI instTrans : IsTrans (List Char) (fun a b => lexLe a b = true) :=
    ⟨fun _ _ _ => lexLe_trans⟩
  have hmap : (reconcile test prod cols).map Prod.fst = sortedKeyUnion test prod := by
    rw [reconcile, List.map_map]
    rw [show (Prod.fst ∘ fun k => (k, rowStatus test prod cols k)) = id from rfl]
    exact List.map_id _
  refine ⟨?_, ?_, ?_, ?_, ?_⟩
  · rw [hmap]
    exact List.sorted_insertionSort _ _
  · rw [hmap]
    exact ((List.perm_insertionSort _ _).nodup_iff).mpr (List.nodup_dedup _)
  · intro k
    rw [hmap, sortedKeyUnion_mem, ← hasKey_iff, ← hasKey_iff]
  · intro k htest hprod
    rw [reconcile, List.mem_map]
    refine ⟨k, ?_, ?_⟩
    · rw [sortedKeyUnion_mem]
      exact Or.inr ((hasKey_iff _ _).mp hprod)
    · simp [rowStatus, htest]
  · intro k htest hprod
    rw [reconcile, List.mem_map]
    refine ⟨k, ?_, ?_⟩
    · rw [sortedKeyUnion_mem]
      exact Or.inl ((hasKey_iff _ _).mp htest)
    · simp [rowStatus, htest, hprod]

/-- C5 witness: with a test table holding only key `"a"` and a prod table
holding only key `"b"`, the loop records `"b"` as only-in-Prod and `"a"`
as only-in-Test. -/
theorem C5_witness :
    ("b".data, DiffStatus.onlyInProd) ∈
        reconcile ⟨[], [("a".data, [])]⟩ ⟨[], [("b".data, [])]⟩ []
    ∧ ("a".data, DiffStatus.onlyInTest) ∈
        reconcile ⟨[], [("a".data, [])]⟩ ⟨[], [("b".data, [])]⟩ [] :=
  ⟨(C5_key_universe ⟨[], [("a".data, [])]⟩ ⟨[], [("b".data, [])]⟩ []).2.2.2.1
      "b".data (by decide) (by decide),
    (C5_key_universe ⟨[], [("a".data, [])]⟩ ⟨[], [("b".data, [])]⟩ []).2.2.2.2
      "a".data (by decide) (by decide)⟩

theorem mem_reconcile_iff (test prod : KeyedTable) (cols : List Val)
    (k : List Char) (st : DiffStatus) :
    (k, st) ∈ reconcile test prod cols ↔
      (k ∈ sortedKeyUnion test prod ∧ st = rowStatus test prod cols k) := by
  rw [reconcile, List.mem_map]
  constructor
  · rintro ⟨k', hk', he⟩
    have h1 : k' = k := congrArg Prod.fst he
    subst h1
    exact ⟨hk', (congrArg Prod.snd he).symm⟩
  · rintro ⟨hk, rfl⟩
    exact ⟨k, hk, rfl⟩

theorem colDiffs_guard_iff (vt vp : Val) (entry : Val × Val × Val) :
    ((if isna vt && isna vp then none
      else if nearly_equal vt vp TOL then none
      else if isna vt || isna vp || !(pyEq vt vp) then some entry
      else none) ≠ none)
    ↔ (¬(isna vt = true ∧ isna vp = true)
        ∧ nearly_equal vt vp TOL = false
        ∧ (isna vt = true ∨ isna vp = true ∨ pyEq vt vp = false)) := by
  by_cases h1 : (isna vt && isna vp) = true
  · rw [if_pos h1]
    rw [Bool.and_eq_true] at h1
    simp [h1]
  · rw [if_neg h1]
    rw [Bool.and_eq_true] at h1
    by_cases h2 : nearly_equal vt vp TOL = true
    · rw [if_pos h2]
      simp [h2]
    · rw [if_neg h2]
      by_cases h3 : (isna vt || isna vp || !(pyEq vt vp)) = true
      · rw [if_pos h3]
        constructor
        · intro _
          refine ⟨h1, Bool.eq_false_iff.mpr h2, ?_⟩
          rcases Bool.or_eq_true_iff.mp h3 with h | h
          · rcases Bool.or_eq_true_iff.mp h with h | h
            · exact Or.inl h
            · exact Or.inr (Or.inl h)
          · exact Or.inr (Or.inr (by simpa using h))
        · intro _
          simp
      · rw [if_neg h3]
        simp only [Bool.or_eq_true, Bool.not_eq_true', not_or] at h3
        simp [h3]
  
theorem colDiffs_ne_nil_iff (test prod : KeyedTable) (cols : List Val) (k : List Char) :
    colDiffs test prod cols k ≠ [] ↔
      ∃ c ∈ cols,
        ¬(isna (test.cell k c) = true ∧ isna (prod.cell k c) = true)
        ∧ nearly_equal (test.cell k c) (prod.cell k c) TOL = false
        ∧ (isna (test.cell k c) = true ∨ isna (prod.cell k c) = true ∨
            pyEq (test.cell k c) (prod.cell k c) = false) := by
  rw [colDiffs, Ne, List.filterMap_eq_nil_iff]
  constructor
  · intro h
    by_contra hno
    apply h
    intro a ha
    by_contra hfa
    exact hno ⟨a, ha, (colDiffs_guard_iff _ _ _).mp hfa⟩
  · rintro ⟨c, hc, hcond⟩ hall
    exact (colDiffs_guard_iff _ _ _).mpr hcond (hall c hc)

/-- C6: the final diff report contains a row for key `k` exactly when `k`
is missing from one side, or exists on both sides and at least one
compared column is neither both-missing, nor nearly equal, nor exactly
equal; rows whose every compared column is equal or within tolerance are
dropped, while only-in rows always survive the filter. -/
theorem C6_report_membership (test prod : KeyedTable) (cols : List Val) (k : List Char) :
    (∃ st, (k, st) ∈ diffReport test prod cols) ↔
      ((test.hasKey k = true ∨ prod.hasKey k = true)
        ∧ (test.hasKey k = false ∨ prod.hasKey k = false ∨
            ∃ c ∈ cols,
              ¬(isna (test.cell k c) = true ∧ isna (prod.cell k c) = true)
              ∧ nearly_equal (test.cell k c) (prod.cell k c) TOL = false
              ∧ (isna (test.cell k c) = true ∨ isna (prod.cell k c) = true ∨
                  pyEq (test.cell k c) (prod.cell k c) = false))) := by
  constructor
  · rintro ⟨st, hst⟩
    rw [diffReport, List.mem_filter] at hst
    obtain ⟨hmem, hne⟩ := hst
    dsimp only at hne
    rw [mem_reconcile_iff] at hmem
    obtain ⟨hk, hstatus⟩ := hmem
    have hu : test.hasKey k = true ∨ prod.hasKey k = true := by
      rcases (sortedKeyUnion_mem test prod k).mp hk with h | h
      · exact Or.inl ((hasKey_iff _ _).mpr h)
      · exact Or.inr ((hasKey_iff _ _).mpr h)
    refine ⟨hu, ?_⟩
    by_cases ht : test.hasKey k = true
    · by_cases hp : prod.hasKey k = true
      · refine Or.inr (Or.inr ?_)
        rw [← colDiffs_ne_nil_iff]
        rw [hstatus, rowStatus, if_neg (by simp [ht]), if_neg (by simp [hp])] at hne
        intro hnil
        rw [hnil] at hne
        simp at hne
      · exact Or.inr (Or.inl (Bool.eq_false_iff.mpr hp))
    · exact Or.inl (Bool.eq_false_iff.mpr ht)
  · rintro ⟨hu, hcase⟩
    refine ⟨rowStatus test prod cols k, ?_⟩
    rw [diffReport, List.mem_filter]
    refine ⟨(mem_reconcile_iff _ _ _ _ _).mpr ⟨?_, rfl⟩, ?_⟩
    · rw [sortedKeyUnion_mem]
      rcases hu with h | h
      · exact Or.inl ((hasKey_iff _ _).mp h)
      · exact Or.inr ((hasKey_iff _ _).mp h)
    · dsimp only
      rcases hcase with h | h | h
      · rw [rowStatus, if_pos (by simp [h])]
        decide
      · by_cases ht : test.hasKey k = true
        · rw [rowStatus, if_neg (by simp [ht]), if_pos (by simp [h])]
          decide
        · rw [rowStatus, if_pos (by simp [Bool.eq_false_iff.mpr ht])]
          decide
      · by_cases ht : test.hasKey k = true
        · by_cases hp : prod.hasKey k = true
          · rw [rowStatus, if_neg (by simp [ht]), if_neg (by simp [hp])]
            have hnil : colDiffs test prod cols k ≠ [] :=
              (colDiffs_ne_nil_iff _ _ _ _).mpr h
            simpa using hnil
          · rw [rowStatus, if_neg (by simp [ht]),
              if_pos (by simp [Bool.eq_false_iff.mpr hp])]
            decide
        · rw [rowStatus, if_pos (by simp [Bool.eq_false_iff.mpr ht])]
          decide

theorem hasKey_nil {t : KeyedTable} (h : t.rows = []) (k : List Char) :
    t.hasKey k = false := by
  rw [KeyedTable.hasKey, h]
  rfl

/-- C10: the contract-list comparison stops (`st.stop`) only when both
prepared tables are empty.  When exactly one side comes back empty, the
comparison proceeds and every key of the non-empty side appears in the
diff report as an `only in` row for that side. -/
theorem C10_one_sided_prep (tTest tProd : RawTable) (sysC assetC : List Char)
    (payC optC : Option (List Char)) :
    ((prepare_contract_list tTest sysC assetC payC optC).table.rows = [] →
      (prepare_contract_list tProd sysC assetC payC optC).table.rows = [] →
      compare_contract_lists tTest tProd sysC assetC payC optC = none)
    ∧ ((prepare_contract_list tTest sysC assetC payC optC).table.rows = [] →
        (prepare_contract_list tProd sysC assetC payC optC).table.rows ≠ [] →
        ∃ rep, compare_contract_lists tTest tProd sysC assetC payC optC = some rep
          ∧ ∀ k ∈ (prepare_contract_list tProd sysC assetC payC optC).table.keys,
              (k, DiffStatus.onlyInProd) ∈ rep)
    ∧ ((prepare_contract_list tTest sysC assetC payC optC).table.rows ≠ [] →
        (prepare_contract_list tProd sysC assetC payC optC).table.rows = [] →
        ∃ rep, compare_contract_lists tTest tProd sysC assetC payC optC = some rep
          ∧ ∀ k ∈ (prepare_contract_list tTest sysC assetC payC optC).table.keys,
              (k, DiffStatus.onlyInTest) ∈ rep) := by
  refine ⟨fun h1 h2 => ?_, fun h1 h2 => ?_, fun h1 h2 => ?_⟩
  · rw [compare_contract_lists]
    dsimp only
    rw [if_pos (by rw [h1, h2]; rfl)]
  · rw [compare_contract_lists]
    dsimp only
    rw [if_neg (by simp [h1, List.isEmpty_iff, h2])]
    refine ⟨_, rfl, fun k hk => ?_⟩
    rw [diffReport, List.mem_filter]
    constructor
    · rw [mem_reconcile_iff]
      refine ⟨?_, ?_⟩
      · rw [sortedKeyUnion_mem]
        exact Or.inr hk
      · rw [rowStatus, if_pos (by rw [hasKey_nil h1]; rfl)]
    · rfl
  · rw [compare_contract_lists]
    dsimp only
    rw [if_neg (by simp [h2, List.isEmpty_iff, h1])]
    refine ⟨_, rfl, fun k hk => ?_⟩
    rw [diffReport, List.mem_filter]
    constructor
    · rw [mem_reconcile_iff]
      refine ⟨?_, ?_⟩
      · rw [sortedKeyUnion_mem]
        exact Or.inl hk
      · rw [rowStatus, if_neg (by rw [(hasKey_iff _ _).mpr hk]; simp),
          if_pos (by rw [hasKey_nil h2]; rfl)]
    · rfl

/-- C10 witness: the test side is missing its required columns (empty
prep), the prod side prepares one row with key `S1_A1_1`; the comparison
proceeds and reports that key as only-in-Prod. -/
theorem C10_witness :
    ∃ rep, compare_contract_lists ⟨[.str "X".data], [[.str "x".data]]⟩
        ⟨[.str "S".data, .str "A".data], [[.str "S1".data, .str "A1".data]]⟩
        "S".data "A".data none none = some rep
      ∧ ("S1_A1_1".data, DiffStatus.onlyInProd) ∈ rep := by
  obtain ⟨rep, heq, hall⟩ :=
    (C10_one_sided_prep ⟨[.str "X".data], [[.str "x".data]]⟩
      ⟨[.str "S".data, .str "A".data], [[.str "S1".data, .str "A1".data]]⟩
      "S".data "A".data none none).2.1 (by decide) (by decide)
  exact ⟨rep, heq, hall _ (by decide)⟩

theorem getD_range_map {α : Type} (f : ℕ → α) (w j : ℕ) (hj : j < w) (d : α) :
    ((List.range w).map f).getD j d = f j := by
  rw [List.getD_eq_getElem?_getD, List.getElem?_map, List.getElem?_range hj]
  rfl

theorem getD_map {α β : Type} (f : α → β) (l : List α) (j : ℕ) (hj : j < l.length)
    (d : β) (d' : α) : (l.map f).getD j d = f (l.getD j d') := by
  rw [List.getD_eq_getElem?_getD, List.getElem?_map, List.getElem?_eq_getElem hj,
    List.getD_eq_getElem?_getD, List.getElem?_eq_getElem hj]
  rfl

theorem indexOf_lt_length_of_mem {α : Type} [BEq α] [LawfulBEq α] {a : α}
    {l : List α} (h : a ∈ l) : l.indexOf a < l.length := by
  induction l with
  | nil => cases h
  | cons b bs ih =>
    by_cases hba : (b == a) = true
    · simp [List.indexOf_cons, hba]
    · rw [List.indexOf_cons]
      simp only [hba, cond_false, List.length_cons]
      rcases List.mem_cons.mp h with rfl | h2
      · exact absurd (by simp) hba
      · exact Nat.succ_lt_succ (ih h2)

/-- C8: on a closing sheet whose two identity labels each occur exactly
once among the rebuilt names (the source raises on any other sheet, and
the model returns `none` there), the Header Reconstructor names each of
the first 9 columns with the header-row-1 value at that position,
untouched by any whitespace normalization — per the reconstruction's
first step the header rows 1 and 2 are forward-filled before naming, so
this is the forward-filled value, equal to the raw cell whenever it is
present; every later column `i` is named
`"<desc> - <acct>_IFRS16 - <dc>"` with `desc` the (forward-filled)
header-row-1 value at `i` whitespace-collapsed and trimmed, `acct` the
(forward-filled) header-row-2 value trimmed and `dc` the raw header-row-3
value trimmed; data starts at physical row index 4 and each row's key is
`identifierValue + "_" + assetValue` (string forms). -/
theorem C8_header_reconstruction (dfRaw : List (List Val)) (idC assetC : List Char)
    (hid : (closingNames dfRaw).count (.str idC) = 1)
    (hasset : (closingNames dfRaw).count (.str assetC) = 1) :
    ∃ t, clean_and_prepare dfRaw idC assetC = some t
      ∧ (∀ i, i < (ffillRow (dfRaw.getD 1 [])).length → i < 9 →
          t.cols.getD i .na = (ffillRow (dfRaw.getD 1 [])).getD i .na)
      ∧ (∀ i, i < (ffillRow (dfRaw.getD 1 [])).length → 9 ≤ i →
          t.cols.getD i .na =
            .str (collapseWs (pyStrip (pyStr ((ffillRow (dfRaw.getD 1 [])).getD i .na)))
              ++ " - ".data
              ++ pyStrip (pyStr ((ffillRow (dfRaw.getD 2 [])).getD i .na))
              ++ "_IFRS16 - ".data
              ++ pyStrip (pyStr ((dfRaw.getD 3 []).getD i .na))))
      ∧ t.rows.length = (dfRaw.drop 4).length
      ∧ (∀ j, j < (dfRaw.drop 4).length →
          (t.rows.getD j ([], [])).1 =
            pyStr (cellAt ((dfRaw.drop 4).getD j [])
                ((closingNames dfRaw).indexOf (.str idC)))
              ++ "_".data
              ++ pyStr (cellAt ((dfRaw.drop 4).getD j [])
                ((closingNames dfRaw).indexOf (.str assetC)))) := by
  have hidm : (Val.str idC) ∈ closingNames dfRaw :=
    List.count_pos_iff.mp (by rw [hid]; norm_num)
  have hassetm : (Val.str assetC) ∈ closingNames dfRaw :=
    List.count_pos_iff.mp (by rw [hasset]; norm_num)
  have hidi := indexOf_lt_length_of_mem hidm
  have hasseti := indexOf_lt_length_of_mem hassetm
  refine ⟨⟨closingNames dfRaw,
    ((dfRaw.drop 4).map (closingStringify (closingNames dfRaw)
        ((closingNames dfRaw).indexOf (.str idC))
        ((closingNames dfRaw).indexOf (.str assetC)))).map
      (fun r => (pyStr (cellAt r ((closingNames dfRaw).indexOf (.str idC)))
        ++ "_".data
        ++ pyStr (cellAt r ((closingNames dfRaw).indexOf (.str assetC))), r))⟩,
    ?_, ?_, ?_, ?_, ?_⟩
  · unfold clean_and_prepare
    dsimp only
    rw [if_pos ⟨hid, hasset⟩]
  · intro i hw h9
    dsimp only
    rw [closingNames, getD_range_map _ _ _ hw, closingColName, if_pos h9]
  · intro i hw h9
    dsimp only
    rw [closingNames, getD_range_map _ _ _ hw, closingColName,
      if_neg (not_lt.mpr h9)]
  · dsimp only
    rw [List.length_map, List.length_map]
  · intro j hj
    dsimp only
    rw [getD_map _ _ _ (by rw [List.length_map]; exact hj) ([], []) [],
      getD_map _ _ _ hj [] []]
    dsimp only
    rw [closingStringify, cellAt, cellAt,
      getD_range_map _ _ _ hidi, getD_range_map _ _ _ hasseti,
      if_pos (by simp), if_pos (by simp)]
    rfl

/-- C8 witness: on the concrete sheet, the table is produced; column 3
(whose header-row-1 cell is missing) is named with the forward-filled
header-row-1 value — concretely `"c2"` — column 9 receives the composite
name `"Desc X - 100_IFRS16 - S"`, and the single data row (physical
index 4) is keyed `"C1_A1"`. -/
theorem C8_witness :
    (∃ t, clean_and_prepare closingEx "Vertrags-ID".data "Asset-ID".data = some t
      ∧ t.cols.getD 3 .na = (ffillRow (closingEx.getD 1 [])).getD 3 .na
      ∧ t.cols.getD 9 .na =
          .str (collapseWs (pyStrip (pyStr ((ffillRow (closingEx.getD 1 [])).getD 9 .na)))
            ++ " - ".data
            ++ pyStrip (pyStr ((ffillRow (closingEx.getD 2 [])).getD 9 .na))
            ++ "_IFRS16 - ".data
            ++ pyStrip (pyStr ((closingEx.getD 3 []).getD 9 .na)))
      ∧ (t.rows.getD 0 ([], [])).1 =
          pyStr (cellAt ((closingEx.drop 4).getD 0 [])
              ((closingNames closingEx).indexOf (.str "Vertrags-ID".data)))
            ++ "_".data
            ++ pyStr (cellAt ((closingEx.drop 4).getD 0 [])
              ((closingNames closingEx).indexOf (.str "Asset-ID".data))))
    ∧ (ffillRow (closingEx.getD 1 [])).getD 3 .na = .str "c2".data
    ∧ (clean_and_prepare closingEx "Vertrags-ID".data "Asset-ID".data).map
        (fun t => t.cols.getD 9 .na) = some (.str "Desc X - 100_IFRS16 - S".data)
    ∧ (clean_and_prepare closingEx "Vertrags-ID".data "Asset-ID".data).map
        (fun t => (t.rows.getD 0 ([], [])).1) = some "C1_A1".data := by
  obtain ⟨t, heq, ha, hb, hl, hd⟩ := C8_header_reconstruction closingEx
    "Vertrags-ID".data "Asset-ID".data (by decide) (by decide)
  exact ⟨⟨t, heq, ha 3 (by decide) (by decide), hb 9 (by decide) (by decide),
    hd 0 (by decide)⟩, by decide, by decide, by decide⟩

theorem resolveOpt_none {cols : List (List Char)} {p : List Char}
    (h : cols.contains p = false) :
    (if cols.contains p = true then some p else none : Option (List Char)) = none := by
  rw [h]
  simp

theorem prepare_fallback_eq (t : RawTable) (sysC assetC : List Char)
    (payC optC : Option (List Char))
    (hsys : (normCols t).contains sysC = true)
    (hasset : (normCols t).contains assetC = true)
    (hpay : ∀ p, payC = some p → (normCols t).contains p = false)
    (hopt : ∀ p, optC = some p → (normCols t).contains p = false) :
    prepare_contract_list t sysC assetC payC optC =
      ⟨none, ⟨(normCols t).map .str ++ [.str "LineIndex".data],
        (numberRows (normCols t) sysC assetC
            (fallbackSortRows (normCols t) sysC assetC
              (t.rows.map (stringifyIdCols (normCols t) [sysC, assetC])))).map
          (fun p => (fallbackKey (normCols t) sysC assetC p.1 p.2,
            p.1 ++ [Val.num (p.2 : ℚ)]))⟩⟩ := by
  have hmr : [sysC, assetC].filter (fun c => !((normCols t).contains c)) = [] := by
    rw [List.filter_cons, List.filter_cons, List.filter_nil, hsys, hasset]
    simp
  unfold prepare_contract_list
  dsimp only
  rw [hmr, if_neg (by simp)]
  rcases payC with _ | p
  · rcases optC with _ | p'
    · dsimp only
      rw [if_neg (by simp)]
      rfl
    · dsimp only
      rw [resolveOpt_none (hopt p' rfl)]
      rw [if_neg (by simp)]
      rfl
  · rcases optC with _ | p'
    · dsimp only
      rw [resolveOpt_none (hpay p rfl)]
      rw [if_neg (by simp)]
      rfl
    · dsimp only
      rw [resolveOpt_none (hpay p rfl), resolveOpt_none (hopt p' rfl)]
      rw [if_neg (by simp)]
      rfl

theorem stringifyIdCols_length (cols strCols : List (List Char)) (r : List Val) :
    (stringifyIdCols cols strCols r).length = cols.length := by
  rw [stringifyIdCols, List.length_map, List.length_range]

theorem perm_fallbackSortRows (cols : List (List Char)) (sysC assetC : List Char)
    (rows : List (List Val)) :
    List.Perm (fallbackSortRows cols sysC assetC rows) rows := by
  rw [fallbackSortRows]
  split
  · exact List.perm_insertionSort _ _
  · exact List.perm_insertionSort _ _

theorem mem_fallbackSortRows {cols : List (List Char)} {sysC assetC : List Char}
    {rows : List (List Val)} {r : List Val} :
    r ∈ fallbackSortRows cols sysC assetC rows ↔ r ∈ rows :=
  (perm_fallbackSortRows cols sysC assetC rows).mem_iff

theorem tripleLe_of_pairLe {x y : List Char × List Char} (h : pairLe x y = true) :
    tripleLe (x.1, x.2, []) (y.1, y.2, []) = true := by
  simp only [pairLe, lexLe, Bool.or_eq_true, Bool.and_eq_true, beq_iff_eq] at h
  simp only [tripleLe, pairLe, lexLe, Bool.or_eq_true, Bool.and_eq_true, beq_iff_eq,
    show lexLt ([] : List Char) [] = false from rfl]
  tauto

theorem sorted_fallbackSortRows (cols : List (List Char)) (sysC assetC : List Char)
    (rows : List (List Val)) :
    List.Sorted (fun r1 r2 => tripleLe (fallbackSortKey cols sysC assetC r1)
      (fallbackSortKey cols sysC assetC r2) = true)
      (fallbackSortRows cols sysC assetC rows) := by
  haveI i1 : IsTotal (List Val) (fun r1 r2 => tripleLe (fallbackSortKey cols sysC assetC r1)
      (fallbackSortKey cols sysC assetC r2) = true) := ⟨fun _ _ => tripleLe_total _ _⟩
  haveI i2 : IsTrans (List Val) (fun r1 r2 => tripleLe (fallbackSortKey cols sysC assetC r1)
      (fallbackSortKey cols sysC assetC r2) = true) := ⟨fun _ _ _ => tripleLe_trans⟩
  haveI j1 : IsTotal (List Val) (fun r1 r2 => pairLe (grpPair cols sysC assetC r1)
      (grpPair cols sysC assetC r2) = true) := ⟨fun _ _ => pairLe_total _ _⟩
  haveI j2 : IsTrans (List Val) (fun r1 r2 => pairLe (grpPair cols sysC assetC r1)
      (grpPair cols sysC assetC r2) = true) := ⟨fun _ _ _ => pairLe_trans⟩
  rw [fallbackSortRows]
  split
  · rename_i hempty
    have hnil : ∀ r, tieBreakStr cols sysC assetC r = [] := by
      intro r
      rw [tieBreakStr, List.isEmpty_iff.mp hempty]
      rfl
    have hs := List.sorted_insertionSort (fun r1 r2 => pairLe (grpPair cols sysC assetC r1)
      (grpPair cols sysC assetC r2) = true) rows
    refine hs.imp ?_
    intro a b hab
    have := tripleLe_of_pairLe hab
    rw [fallbackSortKey, fallbackSortKey, hnil, hnil]
    exact this
  · exact List.sorted_insertionSort _ _

theorem cellAt_append {r : List Val} {x : Val} {i : ℕ} (hi : i < r.length) :
    cellAt (r ++ [x]) i = cellAt r i := by
  rw [cellAt, cellAt, List.getD_append _ _ _ _ hi]

theorem tieBreakStr_append (cols : List (List Char)) (sysC assetC : List Char)
    {r : List Val} {x : Val} (hlen : r.length = cols.length) :
    tieBreakStr cols sysC assetC (r ++ [x]) = tieBreakStr cols sysC assetC r := by
  rw [tieBreakStr, tieBreakStr]
  congr 1
  apply List.map_congr_left
  intro i hi
  rw [fallbackOtherIdx, List.mem_filter] at hi
  exact congrArg pyStr (cellAt_append (by rw [hlen]; exact List.mem_range.mp hi.1))

theorem grpPair_append (cols : List (List Char)) (sysC assetC : List Char)
    {r : List Val} {x : Val} (hlen : r.length = cols.length)
    (hs : cols.indexOf sysC < cols.length) (ha : cols.indexOf assetC < cols.length) :
    grpPair cols sysC assetC (r ++ [x]) = grpPair cols sysC assetC r := by
  rw [grpPair, grpPair, cellAt_append (by rw [hlen]; exact hs),
    cellAt_append (by rw [hlen]; exact ha)]

theorem fallbackSortKey_append (cols : List (List Char)) (sysC assetC : List Char)
    {r : List Val} {x : Val} (hlen : r.length = cols.length)
    (hs : cols.indexOf sysC < cols.length) (ha : cols.indexOf assetC < cols.length) :
    fallbackSortKey cols sysC assetC (r ++ [x]) = fallbackSortKey cols sysC assetC r := by
  rw [fallbackSortKey, fallbackSortKey, cellAt_append (by rw [hlen]; exact hs),
    cellAt_append (by rw [hlen]; exact ha), tieBreakStr_append cols sysC assetC hlen]

theorem map_getD_range_take {α : Type} (l : List α) (d : α) (j : ℕ) (hj : j ≤ l.length) :
    (List.range j).map (fun i => l.getD i d) = l.take j := by
  apply List.ext_getElem
  · simp [hj]
  · intro i h1 h2
    simp only [List.length_map, List.length_range] at h1
    rw [List.getElem_map, List.getElem_range, List.getElem_take,
      List.getD_eq_getElem l d (lt_of_lt_of_le h1 hj)]

theorem map_getD_range {α : Type} (l : List α) (d : α) :
    (List.range l.length).map (fun i => l.getD i d) = l := by
  rw [map_getD_range_take l d l.length le_rfl, List.take_length]

theorem numberRows_length (cols : List (List Char)) (sysC assetC : List Char)
    (sorted : List (List Val)) :
    (numberRows cols sysC assetC sorted).length = sorted.length := by
  rw [numberRows, List.length_map, List.length_range]

theorem numberRows_getD (cols : List (List Char)) (sysC assetC : List Char)
    (sorted : List (List Val)) (j : ℕ) (hj : j < sorted.length) :
    (numberRows cols sysC assetC sorted).getD j ([], 0) =
      (sorted.getD j [],
        1 + (sorted.take j).countP
          (fun r2 => grpPair cols sysC assetC r2 ==
            grpPair cols sysC assetC (sorted.getD j []))) := by
  rw [numberRows, getD_range_map _ _ _ hj]

theorem fallback_keyList_eq (cols : List (List Char)) (sysC assetC : List Char)
    (sorted : List (List Val))
    (hs : cols.indexOf sysC < cols.length) (ha : cols.indexOf assetC < cols.length)
    (hlen : ∀ r ∈ sorted, r.length = cols.length) :
    ((numberRows cols sysC assetC sorted).map
        (fun p => (fallbackKey cols sysC assetC p.1 p.2,
          p.1 ++ [Val.num (p.2 : ℚ)]))).map
      (fun r => fallbackSortKey cols sysC assetC r.2) =
    sorted.map (fallbackSortKey cols sysC assetC) := by
  rw [List.map_map, numberRows, List.map_map]
  apply List.ext_getElem
  · simp
  · intro i h1 h2
    simp only [List.length_map, List.length_range] at h1
    rw [List.getElem_map, List.getElem_map, List.getElem_range]
    dsimp only [Function.comp]
    have hmem : sorted.getD i [] ∈ sorted := by
      rw [List.getD_eq_getElem _ _ h1]
      exact List.getElem_mem h1
    rw [fallbackSortKey_append cols sysC assetC (hlen _ hmem) hs ha,
      List.getD_eq_getElem _ _ h1]

theorem fallback_cellList_eq (cols : List (List Char)) (sysC assetC : List Char)
    (sorted : List (List Val))
    (hlen : ∀ r ∈ sorted, r.length = cols.length) :
    ((numberRows cols sysC assetC sorted).map
        (fun p => (fallbackKey cols sysC assetC p.1 p.2,
          p.1 ++ [Val.num (p.2 : ℚ)]))).map
      (fun r => r.2.take cols.length) = sorted := by
  rw [List.map_map, numberRows, List.map_map]
  apply List.ext_getElem
  · simp
  · intro i h1 h2
    simp only [List.length_map, List.length_range] at h1
    rw [List.getElem_map, List.getElem_range]
    dsimp only [Function.comp]
    have hmem : sorted.getD i [] ∈ sorted := by
      rw [List.getD_eq_getElem _ _ h1]
      exact List.getElem_mem h1
    rw [List.take_left' (hlen _ hmem), List.getD_eq_getElem _ _ h1]

theorem fallback_count_eq (cols : List (List Char)) (sysC assetC : List Char)
    (sorted : List (List Val)) (j : ℕ) (hj : j ≤ sorted.length)
    (hs : cols.indexOf sysC < cols.length) (ha : cols.indexOf assetC < cols.length)
    (hlen : ∀ r ∈ sorted, r.length = cols.length) (target : List Char × List Char) :
    ((((numberRows cols sysC assetC sorted).map
        (fun p => (fallbackKey cols sysC assetC p.1 p.2,
          p.1 ++ [Val.num (p.2 : ℚ)]))).take j).countP
      (fun r2 => grpPair cols sysC assetC r2.2 == target)) =
    (sorted.take j).countP (fun r2 => grpPair cols sysC assetC r2 == target) := by
  rw [← List.map_take, List.countP_map, numberRows, ← List.map_take, List.take_range,
    min_eq_left hj, List.countP_map,
    ← map_getD_range_take sorted ([] : List Val) j hj, List.countP_map]
  apply List.countP_congr
  intro i hi
  have hij : i < j := List.mem_range.mp hi
  have hmem : sorted.getD i [] ∈ sorted := by
    rw [List.getD_eq_getElem _ _ (lt_of_lt_of_le hij hj)]
    exact List.getElem_mem _
  dsimp only [Function.comp]
  rw [grpPair_append cols sysC assetC (hlen _ hmem) hs ha]


/-- C4: on a contract list whose normalized columns contain the two
required identity columns but neither optional identity column, the
normalizer sorts the (identity-stringified) rows ascending by
`(systemId, assetId, tieBreak)` — `tieBreak` being the `|`-joined string
forms of all non-identity cells — keeps exactly the input rows, and keys
row `j` as `systemId_assetId_LineIndex` where `LineIndex` is `1 +` the
number of earlier rows of the same `(systemId, assetId)` group. -/
theorem C4_fallback_line_numbering (t : RawTable) (sysC assetC : List Char)
    (payC optC : Option (List Char))
    (hsys : (normCols t).contains sysC = true)
    (hasset : (normCols t).contains assetC = true)
    (hpay : ∀ p, payC = some p → (normCols t).contains p = false)
    (hopt : ∀ p, optC = some p → (normCols t).contains p = false) :
    List.Sorted (fun a b => tripleLe a b = true)
      ((prepare_contract_list t sysC assetC payC optC).table.rows.map
        (fun r => fallbackSortKey (normCols t) sysC assetC r.2))
    ∧ List.Perm
        ((prepare_contract_list t sysC assetC payC optC).table.rows.map
          (fun r => r.2.take (normCols t).length))
        (t.rows.map (stringifyIdCols (normCols t) [sysC, assetC]))
    ∧ (∀ j, j < (prepare_contract_list t sysC assetC payC optC).table.rows.length →
        ((prepare_contract_list t sysC assetC payC optC).table.rows.getD j ([], [])).1 =
          (grpPair (normCols t) sysC assetC
              ((prepare_contract_list t sysC assetC payC optC).table.rows.getD j
                ([], [])).2).1
            ++ "_".data
            ++ (grpPair (normCols t) sysC assetC
              ((prepare_contract_list t sysC assetC payC optC).table.rows.getD j
                ([], [])).2).2
            ++ "_".data
            ++ (toString (1 +
                ((prepare_contract_list t sysC assetC payC optC).table.rows.take
                    j).countP
                  (fun r2 => grpPair (normCols t) sysC assetC r2.2 ==
                    grpPair (normCols t) sysC assetC
                      ((prepare_contract_list t sysC assetC payC optC).table.rows.getD j
                        ([], [])).2))).data) := by
  have hsysi : (normCols t).indexOf sysC < (normCols t).length :=
    indexOf_lt_length_of_mem (by simpa using hsys)
  have hasseti : (normCols t).indexOf assetC < (normCols t).length :=
    indexOf_lt_length_of_mem (by simpa using hasset)
  have hlenS : ∀ r ∈ fallbackSortRows (normCols t) sysC assetC
      (t.rows.map (stringifyIdCols (normCols t) [sysC, assetC])),
      r.length = (normCols t).length := by
    intro r hr
    obtain ⟨r0, _, rfl⟩ := List.mem_map.mp (mem_fallbackSortRows.mp hr)
    exact stringifyIdCols_length _ _ _
  rw [prepare_fallback_eq t sysC assetC payC optC hsys hasset hpay hopt]
  dsimp only
  refine ⟨?_, ?_, ?_⟩
  · rw [fallback_keyList_eq _ _ _ _ hsysi hasseti hlenS]
    exact List.Pairwise.map _ (fun a b hab => hab)
      (sorted_fallbackSortRows (normCols t) sysC assetC _)
  · rw [fallback_cellList_eq _ _ _ _ hlenS]
    exact perm_fallbackSortRows _ _ _ _
  · intro j hj
    rw [List.length_map, numberRows_length] at hj
    rw [getD_map _ _ j (by rw [numberRows_length]; exact hj) ([], []) ([], 0),
      numberRows_getD _ _ _ _ _ hj]
    dsimp only
    have hmemj : (fallbackSortRows (normCols t) sysC assetC
        (t.rows.map (stringifyIdCols (normCols t) [sysC, assetC]))).getD j [] ∈
        fallbackSortRows (normCols t) sysC assetC
          (t.rows.map (stringifyIdCols (normCols t) [sysC, assetC])) := by
      rw [List.getD_eq_getElem _ _ hj]
      exact List.getElem_mem _
    rw [grpPair_append (normCols t) sysC assetC (hlenS _ hmemj) hsysi hasseti,
      fallback_count_eq (normCols t) sysC assetC _ j (le_of_lt hj) hsysi hasseti hlenS]
    rfl

/-- C4 witness: on the concrete two-row table the key formula holds at
row 0, the assigned keys are exactly `S1_A1_1` and `S1_A1_2`, and they are
assigned in tie-break order: the row with `V = "a"` gets `_1`, the row
with `V = "b"` gets `_2`. -/
theorem C4_witness :
    ((prepare_contract_list contractEx "S".data "A".data none none).table.rows.getD 0
        ([], [])).1 =
      (grpPair (normCols contractEx) "S".data "A".data
          ((prepare_contract_list contractEx "S".data "A".data none none).table.rows.getD 0
            ([], [])).2).1
        ++ "_".data
        ++ (grpPair (normCols contractEx) "S".data "A".data
          ((prepare_contract_list contractEx "S".data "A".data none none).table.rows.getD 0
            ([], [])).2).2
        ++ "_".data
        ++ (toString (1 +
            ((prepare_contract_list contractEx "S".data "A".data none none).table.rows.take
                0).countP
              (fun r2 => grpPair (normCols contractEx) "S".data "A".data r2.2 ==
                grpPair (normCols contractEx) "S".data "A".data
                  ((prepare_contract_list contractEx "S".data "A".data
                      none none).table.rows.getD 0 ([], [])).2))).data
    ∧ (prepare_contract_list contractEx "S".data "A".data none none).table.rows.map
        Prod.fst = ["S1_A1_1".data, "S1_A1_2".data]
    ∧ (prepare_contract_list contractEx "S".data "A".data none none).table.cell
        "S1_A1_1".data (.str "V".data) = .str "a".data
    ∧ (prepare_contract_list contractEx "S".data "A".data none none).table.cell
        "S1_A1_2".data (.str "V".data) = .str "b".data := by
  refine ⟨(C4_fallback_line_numbering contractEx "S".data "A".data none none
      (by decide) (by decide) (fun p hp => Option.noConfusion hp)
      (fun p hp => Option.noConfusion hp)).2.2 0 (by decide),
    by decide, by decide, by decide⟩
